import Mathlib

/-!
A shallow embedding of the live time-series windowing and rendering engine
of `graph_window.py` (class `LiveGraphWindow`), with proofs about its
ingestion cap, zoom model, visible-range resolution, hover resolver, grid
labelling and colour assignment.  Times and values are modelled as
rationals; the only float behaviour the code inspects (`None` / NaN /
non-numeric detection at ingestion) is modelled explicitly.
-/

namespace GraphWindow

/-- Constant `MAX_GRAPH_POINTS` from `logger_core.py`: max samples per channel
stored for the live graph. -/
def MAX_GRAPH_POINTS : Nat := 2000

/-- A Python float as far as the ingestion path can observe it: NaN or an
actual number (modelled as a rational).  `add_sample` stores
`float(elapsed)` without any NaN check, so stored times carry this type. -/
inductive PyFloat where
  | nan : PyFloat
  | val : ℚ → PyFloat
deriving DecidableEq, Repr

/-- A value read from the `temps` dict in `add_sample`: Python `None`, a
NaN float, a non-numeric object (`float(...)` raises `TypeError` or
`ValueError`), or a numeric reading. -/
inductive TempVal where
  | pyNone : TempVal
  | nan : TempVal
  | nonNumeric : TempVal
  | num : ℚ → TempVal
deriving DecidableEq, Repr

/-- Entry `history[ch]` in `LiveGraphWindow`: the parallel lists
`{"t": [...], "v": [...]}`.  Values are numeric when stored (the NaN guard
in `add_sample` checks `val`); times are stored unchecked. -/
structure Series where
  t : List PyFloat
  v : List ℚ
deriving DecidableEq, Repr

def Series.empty : Series := ⟨[], []⟩

/-- The last `n` elements of `l` (all of `l` when `n ≥ l.length`). -/
def takeLast (n : Nat) (l : List α) : List α := l.drop (l.length - n)

/-- Python `l[-n:]`: the last `n` elements, except that `n = 0` yields the
whole list (`l[-0:]` is `l[0:]`, i.e. `l`). -/
def pySliceLast (n : Nat) (l : List α) : List α :=
  if n = 0 then l else takeLast n l

/-- The per-channel body of `add_sample` once the value is accepted:
append `(time, val)` to the series, then cut back to the last `maxPts`
entries when the length exceeds `maxPts`
(`graph_window.py` lines 174-180). -/
def pushSample (maxPts : Nat) (s : Series) (time : PyFloat) (val : ℚ) :
    Series :=
  let t' := s.t ++ [time]
  let v' := s.v ++ [val]
  if maxPts < t'.length then ⟨pySliceLast maxPts t', pySliceLast maxPts v'⟩
  else ⟨t', v'⟩

/-- Python `dict.get(key)` on an association list (keys unique in a dict, so the
first hit is the value). -/
def alistGet (l : List (Nat × α)) (k : Nat) : Option α :=
  match l with
  | [] => none
  | (k', a) :: rest => if k' = k then some a else alistGet rest k

/-- Python `dict[key] = value` on an association list. -/
def alistSet (l : List (Nat × α)) (k : Nat) (a : α) : List (Nat × α) :=
  match l with
  | [] => [(k, a)]
  | (k', b) :: rest =>
      if k' = k then (k, a) :: rest else (k', b) :: alistSet rest k a

/-- The guard in `add_sample`: a `None`, NaN or non-numeric value is
skipped (`continue`), a numeric reading is kept. -/
def acceptVal : TempVal → Option ℚ
  | TempVal.num q => some q
  | _ => none

/-- Lookup `temps.get(ch, float("nan"))`. -/
def tempsGet (temps : List (Nat × TempVal)) (ch : Nat) : TempVal :=
  (alistGet temps ch).getD TempVal.nan

/-- Method `LiveGraphWindow.add_sample` restricted to its effect on `history`
(the trailing `redraw` call only reads state).  For each active channel a
`None`/NaN/non-numeric value is skipped; otherwise the sample is pushed
into that channel's series (created on first use) and capped at `maxPts`
points.  The code stores `float(elapsed)` without checking it for NaN. -/
def add_sample (maxPts : Nat) (active : List (Nat × String))
    (hist : List (Nat × Series)) (elapsed : PyFloat)
    (temps : List (Nat × TempVal)) : List (Nat × Series) :=
  active.foldl
    (fun h chn =>
      match acceptVal (tempsGet temps chn.1) with
      | none => h
      | some q =>
          alistSet h chn.1
            (pushSample maxPts ((alistGet h chn.1).getD Series.empty)
              elapsed q))
    hist

/-- Folding a stream of accepted samples for one channel into an initially
empty series, exactly as repeated `add_sample` calls do. -/
def ingestSeries (m : Nat) (samples : List (PyFloat × ℚ)) : Series :=
  samples.foldl (fun s p => pushSample m s p.1 p.2) Series.empty

/-- Method `zoom_in` (`graph_window.py` lines 186-192), restricted to its state
effect on `self.window_sec`: a `None` window is first initialised to the
300 s default, then halved with a 5 s floor.  A total function — the code
can never raise here. -/
def zoom_in (ws : Option ℚ) : Option ℚ :=
  some (max 5 ((ws.getD 300) / 2))

/-- Iterated `zoom_in`: `n` successive presses. -/
def zoomInN : Nat → Option ℚ → Option ℚ
  | 0, ws => ws
  | n + 1, ws => zoom_in (zoomInN n ws)

/-- Python `max(l)` over a non-empty list (the `[]` default is never
reached behind the code's emptiness guards). -/
def pyMax : List ℚ → ℚ
  | [] => 0
  | x :: xs => xs.foldl max x

/-- Python `min(l)` over a non-empty list. -/
def pyMin : List ℚ → ℚ
  | [] => 0
  | x :: xs => xs.foldl min x

/-- State `self.window_sec` plus the per-channel stored time lists, the only
state `zoom_out` reads (values are irrelevant to zooming).  We consider
states whose stored times are numeric — every state reachable with
numeric `elapsed` inputs. -/
structure ZoomState where
  window_sec : Option ℚ
  times : List (List ℚ)
deriving DecidableEq, Repr

/-- Method `zoom_out` (`graph_window.py` lines 194-217), restricted to its state
effect: no-op without history, without any time point, or with total span
`≤ 0`; otherwise a `None` window is seeded to the total span, the window
is doubled, and a doubled window `≥` the total span becomes `None`
("show full range"). -/
def zoom_out (s : ZoomState) : ZoomState :=
  if s.times = [] then s
  else
    if s.times.flatten = [] then s
    else
      let total_span := pyMax s.times.flatten - pyMin s.times.flatten
      if total_span ≤ 0 then s
      else
        let w := (s.window_sec.getD total_span) * 2
        if total_span ≤ w then ⟨none, s.times⟩ else ⟨some w, s.times⟩

/-- The clamp `max(0.0, min(1.0, self.pan_var.get() / 100.0))` applied to
the raw slider value. -/
def panFrac (pan : ℚ) : ℚ := max 0 (min 1 (pan / 100))

/-- The displayed `(tmin, tmax)` computed by `redraw`
(`graph_window.py` lines 247-262) before the degenerate guard: full
extent when `window_sec` is `None`, otherwise a window clamped to the
span (itself floored at `1e-6`), positioned by the pan fraction. -/
def rawVisibleRange (ws : Option ℚ) (pan gmin gmax : ℚ) : ℚ × ℚ :=
  match ws with
  | none => (gmin, gmax)
  | some w =>
      let span := max (gmax - gmin) (1 / 1000000)
      let window := min w span
      let start_min := gmin
      let start_max := gmax - window
      let tmin :=
        if start_max ≤ start_min then gmin
        else start_min + panFrac pan * (start_max - start_min)
      (tmin, tmin + window)

/-- The displayed range after the degenerate guard
(`graph_window.py` lines 264-265): `if tmax <= tmin: tmax = tmin + 1.0`. -/
def resolveVisibleRange (ws : Option ℚ) (pan gmin gmax : ℚ) : ℚ × ℚ :=
  let p := rawVisibleRange ws pan gmin gmax
  if p.2 ≤ p.1 then (p.1, p.1 + 1) else p

/-- Width of a resolved range. -/
def rangeWidth (p : ℚ × ℚ) : ℚ := p.2 - p.1

/-- Python `abs` on a number. -/
def pyAbs (q : ℚ) : ℚ := if q < 0 then -q else q

/-- A sample time the hover scan keeps: the code skips `t_val` exactly
when `t_val < tmin or t_val > tmax`. -/
def inWin (tmin tmax t : ℚ) : Prop := tmin ≤ t ∧ t ≤ tmax

instance (tmin tmax t : ℚ) : Decidable (inWin tmin tmax t) :=
  inferInstanceAs (Decidable (tmin ≤ t ∧ t ≤ tmax))

/-- The nearest-sample scan of `on_mouse_move` (`graph_window.py` lines
454-462): walk the time list with a running index, skip samples outside
the last-rendered `[tmin, tmax]`, and keep the first index attaining the
smallest `|t_val - t_current|` (the best is replaced only on a strictly
smaller distance). -/
def bestScan (tmin tmax tc : ℚ) :
    Nat → List ℚ → Option (Nat × ℚ) → Option (Nat × ℚ)
  | _, [], acc => acc
  | i, t :: rest, acc =>
      if t < tmin ∨ tmax < t then bestScan tmin tmax tc (i + 1) rest acc
      else
        match acc with
        | none => bestScan tmin tmax tc (i + 1) rest (some (i, pyAbs (t - tc)))
        | some (bi, bd) =>
            if pyAbs (t - tc) < bd then
              bestScan tmin tmax tc (i + 1) rest (some (i, pyAbs (t - tc)))
            else bestScan tmin tmax tc (i + 1) rest (some (bi, bd))

/-- Value `best_idx` as computed by the hover loop for one channel. -/
def bestIdx (tmin tmax tc : ℚ) (ts : List ℚ) : Option Nat :=
  (bestScan tmin tmax tc 0 ts none).map Prod.fst

/-- Round half to even, the tie-breaking used by Python's fixed-point
float formatting. -/
def roundHalfEven (x : ℚ) : ℤ :=
  let f := ⌊x⌋
  let r := x - f
  if r < 1/2 then f
  else if 1/2 < r then f + 1
  else if f % 2 = 0 then f else f + 1

/-- Two-digit zero padding of a remainder below 100. -/
def pad2 (n : Nat) : String :=
  if n < 10 then "0" ++ toString n else toString n

/-- Python `f"{q:.2f}"` on our rational model of floats: fixed-point with
two decimals, ties to even (used by the hover readout). -/
def fmt2 (q : ℚ) : String :=
  let n := roundHalfEven (q * 100)
  (if n < 0 then "-" else "") ++ toString (n.natAbs / 100) ++ "." ++
    pad2 (n.natAbs % 100)

/-- Python `f"{q:.1f}"`: fixed-point with one decimal, ties to even (used
by the axis gridline labels). -/
def fmt1 (q : ℚ) : String :=
  let n := roundHalfEven (q * 10)
  (if n < 0 then "-" else "") ++ toString (n.natAbs / 10) ++ "." ++
    toString (n.natAbs % 10)

/-- A stored per-channel series with numeric times, as read by the hover
resolver (every state reachable with numeric `elapsed` inputs). -/
structure RSeries where
  t : List ℚ
  v : List ℚ
deriving DecidableEq, Repr

/-- The geometry snapshot cached by `redraw` for hover: the plot
rectangle and the `(tmin, tmax, vmin, vmax)` ranges actually drawn. -/
structure PlotGeom where
  left : ℚ
  right : ℚ
  top : ℚ
  bottom : ℚ
  tmin : ℚ
  tmax : ℚ
  vmin : ℚ
  vmax : ℚ
deriving DecidableEq, Repr

/-- The state `on_mouse_move` reads: active channels in display order,
visibility flags (`channel_visibility`), per-channel history, and the
cached geometry (`none` models the `None` fields set when `redraw`
bailed out). -/
structure HoverState where
  active : List (Nat × String)
  visibility : List (Nat × Bool)
  history : List (Nat × RSeries)
  geom : Option PlotGeom
deriving DecidableEq, Repr

/-- Check `var = self.channel_visibility.get(ch)` followed by
`var is not None and not var.get()`: a channel is skipped exactly when a
flag exists for it and is `False`. -/
def isHidden (vis : List (Nat × Bool)) (ch : Nat) : Bool :=
  match alistGet vis ch with
  | some b => !b
  | none => false

/-- Value `t_current` in `on_mouse_move`: the inverse projection of the cursor
pixel x back to data time. -/
def cursorTime (g : PlotGeom) (x : ℚ) : ℚ :=
  g.tmin + (x - g.left) / (g.right - g.left) * (g.tmax - g.tmin)

/-- The `(name, t_val, v_val)` triples accumulated by the hover loop
(`graph_window.py` lines 442-467), in display order: hidden channels,
channels without history, and channels without an in-window sample
contribute nothing. -/
def hoverInfo (st : HoverState) (g : PlotGeom) (tc : ℚ) :
    List (String × ℚ × ℚ) :=
  st.active.filterMap (fun chn =>
    if isHidden st.visibility chn.1 then none
    else
      match alistGet st.history chn.1 with
      | none => none
      | some s =>
          if s.t = [] then none
          else
            match bestIdx g.tmin g.tmax tc s.t with
            | none => none
            | some i => some (chn.2, s.t.getD i 0, s.v.getD i 0))

/-- Method `LiveGraphWindow.on_mouse_move` as the pure function from state and
cursor pixel to the hover label text; `""` models the cleared label. -/
def on_mouse_move (st : HoverState) (x y : ℚ) : String :=
  if st.history = [] then ""
  else
    match st.geom with
    | none => ""
    | some g =>
        if x < g.left ∨ g.right < x ∨ y < g.top ∨ g.bottom < y then ""
        else if g.right = g.left ∨ g.tmax = g.tmin then ""
        else
          match hoverInfo st g (cursorTime g x) with
          | [] => ""
          | (n0, t0, v0) :: rest =>
              String.intercalate " | "
                (("t=" ++ fmt2 (t0 / 60) ++ " min") ::
                  ((n0, t0, v0) :: rest).map
                    (fun p => p.1 ++ "=" ++ fmt2 p.2.2 ++ "°C"))

/-- A concrete hover state exercising the resolver: channel "A" with
samples at times 5 and 6 (values 20 and 22), geometry mapping pixel
x ∈ [0, 100] onto time [0, 10]. -/
def hoverDemo : HoverState :=
  ⟨[(1, "A")], [], [(1, ⟨[5, 6], [20, 22]⟩)],
    some ⟨0, 100, 0, 100, 0, 10, 0, 30⟩⟩

/-- The vertical gridlines drawn by `redraw` (`graph_window.py` lines
304-321) with `n_x = 5`: for `i in range(n_x + 1)`, the pixel x-position
`plot_left + i * (plot_right - plot_left) / n_x` and the label
`f"{t_here / 60.0:.1f}"` for `t_here = tmin + (tmax - tmin) * i / n_x`. -/
def xGridlines (left right tmin tmax : ℚ) : List (ℚ × String) :=
  (List.range 6).map (fun i =>
    (left + (i : ℚ) * (right - left) / 5,
      fmt1 ((tmin + (tmax - tmin) * (i : ℚ) / 5) / 60)))

/-- The horizontal gridlines drawn by `redraw` (lines 323-339) with
`n_y = 5`: for `j in range(n_y + 1)`, the pixel y-position
`plot_top + j * (plot_bottom - plot_top) / n_y` and the label
`f"{v_here:.1f}"` for `v_here = vmax - (vmax - vmin) * j / n_y`. -/
def yGridlines (top bottom vmin vmax : ℚ) : List (ℚ × String) :=
  (List.range 6).map (fun j =>
    (top + (j : ℚ) * (bottom - top) / 5,
      fmt1 (vmax - (vmax - vmin) * (j : ℚ) / 5)))

/-- Palette `self.graph_colors` (`graph_window.py` lines 41-44). -/
def graph_colors : List String :=
  ["blue", "red", "green", "purple", "orange", "brown", "magenta", "cyan"]

/-- The colour used for the channel at position `idx` of
`active_channels`, as computed identically at the polyline draw site
(line 375) and the legend draw site (line 394):
`graph_colors[idx % len(graph_colors)]`. -/
def channelColor (idx : Nat) : String :=
  graph_colors.getD (idx % graph_colors.length) ""

theorem takeLast_length (n : Nat) (l : List α) :
    (takeLast n l).length = min n l.length := by
  simp [takeLast]
  omega

theorem takeLast_of_le (n : Nat) (l : List α) (h : l.length ≤ n) :
    takeLast n l = l := by
  simp [takeLast, Nat.sub_eq_zero_of_le h]

theorem takeLast_append_one (n : Nat) (hn : 1 ≤ n) (l : List α) (x : α) :
    takeLast n (l ++ [x]) = takeLast (n - 1) l ++ [x] := by
  simp only [takeLast, List.length_append, List.length_singleton]
  rw [List.drop_append_of_le_length (by omega)]
  congr 2
  omega

theorem takeLast_takeLast (a b : Nat) (l : List α) :
    takeLast a (takeLast b l) = takeLast (min a b) l := by
  simp only [takeLast, List.drop_drop, List.length_drop]
  congr 1
  omega

theorem pushSample_takeLast (m : Nat) (hm : 1 ≤ m) (ts : List PyFloat)
    (vs : List ℚ) (hlen : ts.length = vs.length) (time : PyFloat) (val : ℚ) :
    pushSample m ⟨takeLast m ts, takeLast m vs⟩ time val =
      ⟨takeLast m (ts ++ [time]), takeLast m (vs ++ [val])⟩ := by
  by_cases hts : ts.length < m
  · have h1 : takeLast m ts = ts := takeLast_of_le m ts (by omega)
    have h2 : takeLast m vs = vs := takeLast_of_le m vs (by omega)
    have h3 : takeLast m (ts ++ [time]) = ts ++ [time] :=
      takeLast_of_le m _ (by simp; omega)
    have h4 : takeLast m (vs ++ [val]) = vs ++ [val] :=
      takeLast_of_le m _ (by simp; omega)
    simp only [pushSample, h1, h2, h3, h4]
    rw [if_neg (by simp; omega)]
  · have hcond : m < (takeLast m ts ++ [time]).length := by
      rw [List.length_append, takeLast_length]
      simp
      omega
    simp only [pushSample]
    rw [if_pos hcond]
    have e1 : pySliceLast m (takeLast m ts ++ [time]) =
        takeLast m (ts ++ [time]) := by
      unfold pySliceLast
      rw [if_neg (by omega), takeLast_append_one m hm,
        takeLast_takeLast, takeLast_append_one m hm]
      congr 2
      omega
    have e2 : pySliceLast m (takeLast m vs ++ [val]) =
        takeLast m (vs ++ [val]) := by
      unfold pySliceLast
      rw [if_neg (by omega), takeLast_append_one m hm,
        takeLast_takeLast, takeLast_append_one m hm]
      congr 2
      omega
    simp [e1, e2]

theorem ingestSeries_eq (m : Nat) (hm : 1 ≤ m)
    (samples : List (PyFloat × ℚ)) :
    ingestSeries m samples =
      ⟨takeLast m (samples.map Prod.fst), takeLast m (samples.map Prod.snd)⟩ := by
  induction samples using List.reverseRecOn with
  | nil => simp [ingestSeries, takeLast, Series.empty]
  | append_singleton l p ih =>
      simp only [ingestSeries, List.foldl_append, List.foldl_cons,
        List.foldl_nil] at *
      rw [ih, List.map_append, List.map_append]
      exact pushSample_takeLast m hm _ _ (by simp) p.1 p.2

/-- C1: for any positive cap and any sequence of accepted appends on one
channel, the stored series never exceeds the cap and retains exactly the
most recent samples in arrival order (oldest evicted first); the cap used
by the program, `MAX_GRAPH_POINTS`, is 2000. -/
theorem ingest_cap_and_fifo (m : Nat) (hm : 1 ≤ m)
    (samples : List (PyFloat × ℚ)) :
    MAX_GRAPH_POINTS = 2000 ∧
    (ingestSeries m samples).t.length ≤ m ∧
    (ingestSeries m samples).t = takeLast m (samples.map Prod.fst) ∧
    (ingestSeries m samples).v = takeLast m (samples.map Prod.snd) := by
  have h := ingestSeries_eq m hm samples
  refine ⟨rfl, ?_, by rw [h], by rw [h]⟩
  rw [h]
  simp only [takeLast_length]
  omega

/-- C1 witness: with cap 3, appending five samples at times `0..4` leaves
stored times `[2, 3, 4]`. -/
theorem ingest_cap_and_fifo_witness :
    1 ≤ 3 ∧
    (ingestSeries 3 [(PyFloat.val 0, 10), (PyFloat.val 1, 11),
      (PyFloat.val 2, 12), (PyFloat.val 3, 13), (PyFloat.val 4, 14)]).t =
      [PyFloat.val 2, PyFloat.val 3, PyFloat.val 4] ∧
    ((ingestSeries 3 [(PyFloat.val 0, 10), (PyFloat.val 1, 11),
      (PyFloat.val 2, 12), (PyFloat.val 3, 13), (PyFloat.val 4, 14)]).t.length ≤ 3) :=
  ⟨by decide, by decide,
    (ingest_cap_and_fifo 3 (by decide)
      [(PyFloat.val 0, 10), (PyFloat.val 1, 11), (PyFloat.val 2, 12),
        (PyFloat.val 3, 13), (PyFloat.val 4, 14)]).2.1⟩

/-- C2 counterexample: an `add_sample` call with `t = NaN` and a valid
value 20 stores the sample (the code never checks `elapsed` for NaN), so
the call is not a no-op, contradicting the claim. -/
theorem add_sample_nan_time_stored :
    add_sample 2000 [(1, "A")] [] PyFloat.nan [(1, TempVal.num 20)] =
      [(1, ⟨[PyFloat.nan], [20]⟩)] ∧
    add_sample 2000 [(1, "A")] [] PyFloat.nan [(1, TempVal.num 20)] ≠ [] := by
  constructor
  · decide
  · decide

/-- C2 amended: when every active channel's value is rejected (`None`,
NaN, or non-numeric — the value check), `add_sample` leaves `history`
unchanged and raises no error; the time `t` is never validated, so a NaN
`t` paired with a valid value is stored. -/
theorem add_sample_rejected_noop (m : Nat) (active : List (Nat × String))
    (hist : List (Nat × Series)) (elapsed : PyFloat)
    (temps : List (Nat × TempVal))
    (hrej : ∀ p ∈ active, acceptVal (tempsGet temps p.1) = none) :
    add_sample m active hist elapsed temps = hist := by
  induction active generalizing hist with
  | nil => rfl
  | cons a rest ih =>
      have ha := hrej a (by simp)
      have hrest : ∀ p ∈ rest, acceptVal (tempsGet temps p.1) = none :=
        fun p hp => hrej p (by simp [hp])
      show List.foldl _ _ (a :: rest) = hist
      rw [List.foldl_cons]
      simp only [ha]
      exact ih hist hrest

/-- C2 amended witness: a NaN value on channel 1 and a `None` value on
channel 2 leave a non-trivial history untouched. -/
theorem add_sample_rejected_noop_witness :
    (∀ p ∈ [(1, "A"), (2, "B")],
      acceptVal (tempsGet [(1, TempVal.nan), (2, TempVal.pyNone)] p.1) = none) ∧
    add_sample 2000 [(1, "A"), (2, "B")] [(1, ⟨[PyFloat.val 0], [10]⟩)]
      (PyFloat.val 7) [(1, TempVal.nan), (2, TempVal.pyNone)] =
      [(1, ⟨[PyFloat.val 0], [10]⟩)] :=
  ⟨by decide,
    add_sample_rejected_noop 2000 [(1, "A"), (2, "B")]
      [(1, ⟨[PyFloat.val 0], [10]⟩)] (PyFloat.val 7)
      [(1, TempVal.nan), (2, TempVal.pyNone)] (by decide)⟩

theorem zoom_out_noop_empty (s : ZoomState) (h : s.times.flatten = []) :
    zoom_out s = s := by
  unfold zoom_out
  by_cases ht : s.times = []
  · rw [if_pos ht]
  · rw [if_neg ht, if_pos h]

theorem zoom_out_noop_span (s : ZoomState)
    (h : pyMax s.times.flatten - pyMin s.times.flatten ≤ 0) : zoom_out s = s := by
  unfold zoom_out
  by_cases ht : s.times = []
  · rw [if_pos ht]
  · rw [if_neg ht]
    by_cases hj : s.times.flatten = []
    · rw [if_pos hj]
    · rw [if_neg hj]
      simp only []
      rw [if_pos h]

theorem zoom_out_active (s : ZoomState) (h1 : s.times.flatten ≠ [])
    (h2 : 0 < pyMax s.times.flatten - pyMin s.times.flatten) :
    zoom_out s =
      ⟨if pyMax s.times.flatten - pyMin s.times.flatten ≤
          (s.window_sec.getD (pyMax s.times.flatten - pyMin s.times.flatten)) * 2
        then none
        else some ((s.window_sec.getD
          (pyMax s.times.flatten - pyMin s.times.flatten)) * 2), s.times⟩ := by
  have ht : s.times ≠ [] := by
    intro h
    exact h1 (by rw [h]; rfl)
  unfold zoom_out
  rw [if_neg ht, if_neg h1]
  simp only []
  rw [if_neg (not_le.mpr h2)]
  split_ifs <;> rfl

/-- C3: `zoom_out` is a no-op when no sample is retained or the total
span is `≤ 0`; otherwise a `None` window is first seeded to the total
span, the window is doubled, and it becomes `None` (full range) exactly
when the doubled value reaches the total span. -/
theorem zoom_out_spec (s : ZoomState) :
    (s.times.flatten = [] → zoom_out s = s) ∧
    (pyMax s.times.flatten - pyMin s.times.flatten ≤ 0 → zoom_out s = s) ∧
    (s.times.flatten ≠ [] → 0 < pyMax s.times.flatten - pyMin s.times.flatten →
      (zoom_out s).times = s.times ∧
      (zoom_out s).window_sec =
        (if pyMax s.times.flatten - pyMin s.times.flatten ≤
            (s.window_sec.getD (pyMax s.times.flatten - pyMin s.times.flatten)) * 2
          then none
          else some ((s.window_sec.getD
            (pyMax s.times.flatten - pyMin s.times.flatten)) * 2))) := by
  refine ⟨zoom_out_noop_empty s, zoom_out_noop_span s, fun h1 h2 => ?_⟩
  rw [zoom_out_active s h1 h2]
  exact ⟨rfl, rfl⟩

/-- C3 witness: from `window_sec = None` with one channel spanning 100 s,
`zoom_out` seeds 100, doubles to 200, and since `100 ≤ 200` ends at `None`
again — zooming out from full stays full. -/
theorem zoom_out_spec_witness :
    (([[(0 : ℚ), 100]] : List (List ℚ)).flatten ≠ [] ∧
      0 < pyMax ([[(0 : ℚ), 100]] : List (List ℚ)).flatten -
        pyMin ([[(0 : ℚ), 100]] : List (List ℚ)).flatten) ∧
    (zoom_out ⟨none, [[0, 100]]⟩).window_sec = none := by
  refine ⟨⟨by decide, by norm_num [pyMax, pyMin]⟩, ?_⟩
  have h := (zoom_out_spec ⟨none, [[0, 100]]⟩).2.2 (by decide)
    (by norm_num [pyMax, pyMin])
  rw [h.2, if_pos (by norm_num [pyMax, pyMin])]

/-- C7: `zoom_in` is total (never throws) and after at least one press
`window_sec` is non-null and at least the 5-second floor. -/
theorem zoomInN_floor (n : Nat) (hn : 1 ≤ n) (ws : Option ℚ) :
    ∃ w : ℚ, zoomInN n ws = some w ∧ 5 ≤ w := by
  cases n with
  | zero => omega
  | succ m =>
      exact ⟨max 5 ((zoomInN m ws).getD 300 / 2), rfl, le_max_left _ _⟩

/-- C7 witness: one press from the `None` (full-range) state gives a
150-second window, which is at least the floor. -/
theorem zoomInN_floor_witness :
    1 ≤ 1 ∧ zoomInN 1 none = some 150 ∧
      ∃ w : ℚ, zoomInN 1 none = some w ∧ 5 ≤ w :=
  ⟨by decide, by norm_num [zoomInN, zoom_in, max_def],
    zoomInN_floor 1 (by decide) none⟩

/-- C6: the resolved visible range always satisfies `tmin < tmax` — the
degenerate case is forced to `tmax = tmin + 1`, so the geometry snapshot
stored for hover always has a strictly positive time span. -/
theorem resolveVisibleRange_pos (ws : Option ℚ) (pan gmin gmax : ℚ) :
    (resolveVisibleRange ws pan gmin gmax).1 <
      (resolveVisibleRange ws pan gmin gmax).2 ∧
    ((rawVisibleRange ws pan gmin gmax).2 ≤ (rawVisibleRange ws pan gmin gmax).1 →
      resolveVisibleRange ws pan gmin gmax =
        ((rawVisibleRange ws pan gmin gmax).1,
          (rawVisibleRange ws pan gmin gmax).1 + 1)) := by
  unfold resolveVisibleRange
  by_cases h : (rawVisibleRange ws pan gmin gmax).2 ≤
      (rawVisibleRange ws pan gmin gmax).1
  · rw [if_pos h]
    exact ⟨by simp, fun _ => rfl⟩
  · rw [if_neg h]
    exact ⟨lt_of_not_le h, fun hc => absurd hc h⟩

/-- C6 witness: a zero-width requested window (`window_sec = 0`) is
degenerate; the resolver forces the range to `(0, 1)`, strictly
positive. -/
theorem resolveVisibleRange_pos_witness :
    (rawVisibleRange (some 0) 0 0 10).2 ≤ (rawVisibleRange (some 0) 0 0 10).1 ∧
    resolveVisibleRange (some 0) 0 0 10 =
      ((rawVisibleRange (some 0) 0 0 10).1,
        (rawVisibleRange (some 0) 0 0 10).1 + 1) ∧
    (resolveVisibleRange (some 0) 0 0 10).1 <
      (resolveVisibleRange (some 0) 0 0 10).2 :=
  ⟨by norm_num [rawVisibleRange, panFrac, min_def, max_def],
    (resolveVisibleRange_pos (some 0) 0 0 10).2
      (by norm_num [rawVisibleRange, panFrac, min_def, max_def]),
    (resolveVisibleRange_pos (some 0) 0 0 10).1⟩

theorem rawVisibleRange_some_width (w pan gmin gmax : ℚ) :
    (rawVisibleRange (some w) pan gmin gmax).2 -
      (rawVisibleRange (some w) pan gmin gmax).1 =
      min w (max (gmax - gmin) (1 / 1000000)) := by
  simp only [rawVisibleRange]
  split_ifs <;> ring

theorem rangeWidth_resolve (ws : Option ℚ) (pan gmin gmax : ℚ) :
    rangeWidth (resolveVisibleRange ws pan gmin gmax) =
      if (rawVisibleRange ws pan gmin gmax).2 ≤
          (rawVisibleRange ws pan gmin gmax).1
      then 1
      else (rawVisibleRange ws pan gmin gmax).2 -
        (rawVisibleRange ws pan gmin gmax).1 := by
  unfold resolveVisibleRange rangeWidth
  by_cases h : (rawVisibleRange ws pan gmin gmax).2 ≤
      (rawVisibleRange ws pan gmin gmax).1
  · simp only [if_pos h]
    ring
  · simp only [if_neg h]

/-- C4 counterexample: from the full-range state (`window_sec = None`)
with samples spanning 1000 s, `zoom_in` yields a 150 s window and the
immediately following `zoom_out` yields 300 s — strictly narrower than
the original full view, so the pair can shrink the visible window. -/
theorem zoom_pair_shrinks :
    (zoom_out ⟨zoom_in none, [[0, 1000]]⟩).window_sec = some 300 ∧
    rangeWidth (resolveVisibleRange
        (zoom_out ⟨zoom_in none, [[0, 1000]]⟩).window_sec 0 0 1000) <
      rangeWidth (resolveVisibleRange none 0 0 1000) := by
  have hz : zoom_in none = some 150 := by norm_num [zoom_in, max_def]
  have hzo : (zoom_out ⟨zoom_in none, [[0, 1000]]⟩).window_sec = some 300 := by
    rw [hz, zoom_out_active _ (by decide) (by norm_num [pyMax, pyMin])]
    simp only []
    rw [if_neg (by norm_num [pyMax, pyMin])]
    norm_num [pyMax, pyMin]
  refine ⟨hzo, ?_⟩
  rw [hzo, rangeWidth_resolve, rangeWidth_resolve]
  norm_num [rawVisibleRange, panFrac, min_def, max_def]

/-- C4 amended: when `window_sec` is a positive number (not the full-range
`None` sentinel), at least one sample is retained and the retained time
span is at least the renderer's `1e-6` span floor, `zoom_in` followed
immediately by `zoom_out` never shrinks the visible window; from the
full-range state (span over 600 s) or with no samples the pair can shrink
it (see the counterexample). -/
theorem zoom_pair_no_shrink (times : List (List ℚ)) (w pan : ℚ)
    (hw : 0 < w) (hne : times.flatten ≠ [])
    (hspan : 1 / 1000000 ≤ pyMax times.flatten - pyMin times.flatten) :
    rangeWidth (resolveVisibleRange (some w) pan (pyMin times.flatten)
        (pyMax times.flatten)) ≤
      rangeWidth (resolveVisibleRange
        (zoom_out ⟨zoom_in (some w), times⟩).window_sec pan
        (pyMin times.flatten) (pyMax times.flatten)) := by
  set gmin := pyMin times.flatten with hgmin
  set gmax := pyMax times.flatten with hgmax
  have hspan0 : 0 < gmax - gmin := lt_of_lt_of_le (by norm_num) hspan
  have hmax : max (gmax - gmin) (1 / 1000000 : ℚ) = gmax - gmin :=
    max_eq_left hspan
  have hwidth : ∀ u : ℚ, 0 < u →
      rangeWidth (resolveVisibleRange (some u) pan gmin gmax) =
        min u (gmax - gmin) := by
    intro u hu
    have hraw := rawVisibleRange_some_width u pan gmin gmax
    have hupos : 0 < min u (gmax - gmin) := lt_min hu hspan0
    have hnc : ¬ ((rawVisibleRange (some u) pan gmin gmax).2 ≤
        (rawVisibleRange (some u) pan gmin gmax).1) := by
      rw [← sub_nonpos, hraw, hmax]
      exact not_le.mpr hupos
    rw [rangeWidth_resolve, if_neg hnc, hraw, hmax]
  have hwnone : rangeWidth (resolveVisibleRange none pan gmin gmax) =
      gmax - gmin := by
    have hrawn : rawVisibleRange none pan gmin gmax = (gmin, gmax) := rfl
    rw [rangeWidth_resolve, hrawn]
    rw [if_neg (not_le.mpr (by simp only []; linarith))]
  have hzi : zoom_in (some w) = some (max 5 (w / 2)) := rfl
  have hzo := zoom_out_active ⟨some (max 5 (w / 2)), times⟩ hne
    (by rw [← hgmin, ← hgmax]; exact hspan0)
  rw [hzi, hzo]
  simp only [Option.getD_some]
  have hww : w ≤ max 5 (w / 2) * 2 := by
    have := le_max_right (5 : ℚ) (w / 2)
    linarith
  by_cases hc : gmax - gmin ≤ max 5 (w / 2) * 2
  · rw [if_pos hc, hwnone, hwidth w hw]
    exact min_le_right _ _
  · rw [if_neg hc, hwidth w hw,
      hwidth (max 5 (w / 2) * 2) (by linarith [le_max_left (5 : ℚ) (w / 2)])]
    exact min_le_min hww (le_refl _)

/-- C4 amended witness: with one channel spanning 100 s and a 40 s window,
`zoom_in` then `zoom_out` ends at 40 s again — not narrower. -/
theorem zoom_pair_no_shrink_witness :
    ((0 : ℚ) < 40 ∧ ([[(0 : ℚ), 100]] : List (List ℚ)).flatten ≠ [] ∧
      (1 / 1000000 : ℚ) ≤ pyMax ([[(0 : ℚ), 100]] : List (List ℚ)).flatten -
        pyMin ([[(0 : ℚ), 100]] : List (List ℚ)).flatten) ∧
    rangeWidth (resolveVisibleRange (some 40) 0
        (pyMin ([[(0 : ℚ), 100]] : List (List ℚ)).flatten)
        (pyMax ([[(0 : ℚ), 100]] : List (List ℚ)).flatten)) ≤
      rangeWidth (resolveVisibleRange
        (zoom_out ⟨zoom_in (some 40), [[0, 100]]⟩).window_sec 0
        (pyMin ([[(0 : ℚ), 100]] : List (List ℚ)).flatten)
        (pyMax ([[(0 : ℚ), 100]] : List (List ℚ)).flatten)) :=
  ⟨⟨by norm_num, by decide, by norm_num [pyMax, pyMin]⟩,
    zoom_pair_no_shrink [[0, 100]] 40 0 (by norm_num) (by decide)
      (by norm_num [pyMax, pyMin])⟩

theorem pyAbs_eq_abs (q : ℚ) : pyAbs q = |q| := by
  unfold pyAbs
  by_cases h : q < 0
  · rw [if_pos h, abs_of_neg h]
  · rw [if_neg h, abs_of_nonneg (not_lt.mp h)]

theorem bestScan_go (tmin tmax tc : ℚ) (l : List ℚ) :
    ∀ (k : Nat) (acc : Option (Nat × ℚ)),
      (∀ i0 d0, acc = some (i0, d0) → i0 < k) →
      ∀ i d, bestScan tmin tmax tc k l acc = some (i, d) →
        (acc = some (i, d) ∨
          ∃ j, ∃ hj : j < l.length, i = k + j ∧
            inWin tmin tmax (l.get ⟨j, hj⟩) ∧ d = pyAbs (l.get ⟨j, hj⟩ - tc)) ∧
        (∀ m (hm : m < l.length), inWin tmin tmax (l.get ⟨m, hm⟩) →
          d ≤ pyAbs (l.get ⟨m, hm⟩ - tc) ∧
            (k + m < i → d < pyAbs (l.get ⟨m, hm⟩ - tc))) ∧
        (∀ i0 d0, acc = some (i0, d0) → d ≤ d0 ∧ (i ≠ i0 → d < d0)) := by
  induction l with
  | nil =>
      intro k acc hacc i d hres
      simp only [bestScan] at hres
      refine ⟨Or.inl hres, fun m hm => by simp at hm, fun i0 d0 h0 => ?_⟩
      rw [h0] at hres
      obtain ⟨h1, h2⟩ := Prod.mk.injEq .. ▸ Option.some.inj hres
      subst h1
      subst h2
      exact ⟨le_refl _, fun hne => absurd rfl hne⟩
  | cons t rest ih =>
      intro k acc hacc i d hres
      simp only [bestScan] at hres
      by_cases hskip : t < tmin ∨ tmax < t
      · rw [if_pos hskip] at hres
        have hacc' : ∀ i0 d0, acc = some (i0, d0) → i0 < k + 1 :=
          fun i0 d0 h0 => Nat.lt_succ_of_lt (hacc i0 d0 h0)
        obtain ⟨hC1, hC2, hC3⟩ := ih (k + 1) acc hacc' i d hres
        refine ⟨?_, ?_, hC3⟩
        · rcases hC1 with h0 | ⟨j, hj, hij, hwin, hd⟩
          · exact Or.inl h0
          · exact Or.inr ⟨j + 1, by simpa using Nat.succ_lt_succ hj,
              by omega, hwin, hd⟩
        · intro m hm hwm
          cases m with
          | zero =>
              exfalso
              rcases hskip with h | h
              · exact absurd hwm.1 (not_le.mpr h)
              · exact absurd hwm.2 (not_le.mpr h)
          | succ m' =>
              obtain ⟨h1, h2⟩ := hC2 m' (by simpa using hm) hwm
              exact ⟨h1, fun hlt => h2 (by omega)⟩
      · have hwt : inWin tmin tmax t := by
          rw [not_or] at hskip
          exact ⟨not_lt.mp hskip.1, not_lt.mp hskip.2⟩
        rw [if_neg hskip] at hres
        rcases hacc0 : acc with _ | ⟨bi, bd⟩
        · rw [hacc0] at hres
          simp only [] at hres
          have hacc' : ∀ i0 d0, (some (k, pyAbs (t - tc)) :
              Option (Nat × ℚ)) = some (i0, d0) → i0 < k + 1 := by
            intro i0 d0 h0
            obtain ⟨h1, _⟩ := Prod.mk.injEq .. ▸ Option.some.inj h0
            omega
          obtain ⟨hC1, hC2, hC3⟩ := ih (k + 1) _ hacc' i d hres
          refine ⟨?_, ?_, fun i0 d0 h0 => by simp at h0⟩
          · rcases hC1 with h0 | ⟨j, hj, hij, hwin, hd⟩
            · obtain ⟨h1, h2⟩ := Prod.mk.injEq .. ▸ Option.some.inj h0
              exact Or.inr ⟨0, by simp, by omega, hwt, h2.symm⟩
            · exact Or.inr ⟨j + 1, by simpa using Nat.succ_lt_succ hj,
                by omega, hwin, hd⟩
          · intro m hm hwm
            cases m with
            | zero =>
                obtain ⟨h1, h2⟩ := hC3 k (pyAbs (t - tc)) rfl
                exact ⟨h1, fun hlt => h2 (by omega)⟩
            | succ m' =>
                obtain ⟨h1, h2⟩ := hC2 m' (by simpa using hm) hwm
                exact ⟨h1, fun hlt => h2 (by omega)⟩
        · rw [hacc0] at hres
          simp only [] at hres
          have hbik : bi < k := hacc bi bd hacc0
          by_cases hlt : pyAbs (t - tc) < bd
          · rw [if_pos hlt] at hres
            have hacc' : ∀ i0 d0, (some (k, pyAbs (t - tc)) :
                Option (Nat × ℚ)) = some (i0, d0) → i0 < k + 1 := by
              intro i0 d0 h0
              obtain ⟨h1, _⟩ := Prod.mk.injEq .. ▸ Option.some.inj h0
              omega
            obtain ⟨hC1, hC2, hC3⟩ := ih (k + 1) _ hacc' i d hres
            have hdle : d ≤ pyAbs (t - tc) := (hC3 k (pyAbs (t - tc)) rfl).1
            refine ⟨?_, ?_, ?_⟩
            · rcases hC1 with h0 | ⟨j, hj, hij, hwin, hd⟩
              · obtain ⟨h1, h2⟩ := Prod.mk.injEq .. ▸ Option.some.inj h0
                exact Or.inr ⟨0, by simp, by omega, hwt, h2.symm⟩
              · exact Or.inr ⟨j + 1, by simpa using Nat.succ_lt_succ hj,
                  by omega, hwin, hd⟩
            · intro m hm hwm
              cases m with
              | zero =>
                  obtain ⟨h1, h2⟩ := hC3 k (pyAbs (t - tc)) rfl
                  exact ⟨h1, fun hl => h2 (by omega)⟩
              | succ m' =>
                  obtain ⟨h1, h2⟩ := hC2 m' (by simpa using hm) hwm
                  exact ⟨h1, fun hl => h2 (by omega)⟩
            · intro i0 d0 h0
              obtain ⟨h1, h2⟩ := Prod.mk.injEq .. ▸ Option.some.inj h0
              subst h1
              subst h2
              exact ⟨le_of_lt (lt_of_le_of_lt hdle hlt),
                fun _ => lt_of_le_of_lt hdle hlt⟩
          · rw [if_neg hlt] at hres
            have hacc' : ∀ i0 d0, (some (bi, bd) :
                Option (Nat × ℚ)) = some (i0, d0) → i0 < k + 1 := by
              intro i0 d0 h0
              obtain ⟨h1, _⟩ := Prod.mk.injEq .. ▸ Option.some.inj h0
              omega
            obtain ⟨hC1, hC2, hC3⟩ := ih (k + 1) _ hacc' i d hres
            obtain ⟨hdle, hdlt⟩ := hC3 bi bd rfl
            have hbdle : bd ≤ pyAbs (t - tc) := not_lt.mp hlt
            refine ⟨?_, ?_, ?_⟩
            · rcases hC1 with h0 | ⟨j, hj, hij, hwin, hd⟩
              · exact Or.inl h0
              · exact Or.inr ⟨j + 1, by simpa using Nat.succ_lt_succ hj,
                  by omega, hwin, hd⟩
            · intro m hm hwm
              cases m with
              | zero =>
                  refine ⟨le_trans hdle hbdle, fun hl => ?_⟩
                  have hne : i ≠ bi := by omega
                  exact lt_of_lt_of_le (hdlt hne) hbdle
              | succ m' =>
                  obtain ⟨h1, h2⟩ := hC2 m' (by simpa using hm) hwm
                  exact ⟨h1, fun hl => h2 (by omega)⟩
            · intro i0 d0 h0
              obtain ⟨h1, h2⟩ := Prod.mk.injEq .. ▸ Option.some.inj h0
              subst h1
              subst h2
              exact ⟨hdle, hdlt⟩

/-- C5: when the hover scan selects index `i` for a channel, that sample
lies inside the last-rendered `[tmin, tmax]` and, among all in-window
samples, minimises `|t - tCursor|`, with ties broken in favour of the
earlier index. -/
theorem hover_nearest (tmin tmax tc : ℚ) (ts : List ℚ) (i : Nat)
    (h : bestIdx tmin tmax tc ts = some i) :
    ∃ hi : i < ts.length,
      inWin tmin tmax (ts.get ⟨i, hi⟩) ∧
      ∀ j (hj : j < ts.length), inWin tmin tmax (ts.get ⟨j, hj⟩) →
        |ts.get ⟨i, hi⟩ - tc| ≤ |ts.get ⟨j, hj⟩ - tc| ∧
        (|ts.get ⟨j, hj⟩ - tc| ≤ |ts.get ⟨i, hi⟩ - tc| → i ≤ j) := by
  unfold bestIdx at h
  cases hscan : bestScan tmin tmax tc 0 ts none with
  | none => rw [hscan] at h; cases h
  | some p =>
      obtain ⟨i', d⟩ := p
      rw [hscan] at h
      simp only [Option.map_some'] at h
      have hii : i' = i := Option.some.inj h
      subst hii
      obtain ⟨hC1, hC2, _⟩ :=
        bestScan_go tmin tmax tc ts 0 none (by intro i0 d0 h0; cases h0) i' d hscan
      rcases hC1 with h0 | ⟨j, hj, hij, hwin, hd⟩
      · cases h0
      · have hij' : i' = j := by omega
        subst hij'
        refine ⟨hj, hwin, fun m hm hwm => ?_⟩
        obtain ⟨h1, h2⟩ := hC2 m hm hwm
        rw [hd] at h1 h2
        constructor
        · rw [← pyAbs_eq_abs, ← pyAbs_eq_abs]
          exact h1
        · intro hmle
          by_contra hc
          push_neg at hc
          have hlt := h2 (by omega)
          rw [← pyAbs_eq_abs, ← pyAbs_eq_abs] at hmle
          exact absurd hmle (not_le.mpr hlt)

/-- C5 witness: samples at `t = 5` and `t = 6`, cursor time `5.4`: the
scan picks index 0 (the sample at `t = 5`, the closer one). -/
theorem hover_nearest_witness :
    bestIdx 0 10 (27/5) [5, 6] = some 0 ∧
    ∃ hi : 0 < ([5, 6] : List ℚ).length,
      inWin 0 10 (([5, 6] : List ℚ).get ⟨0, hi⟩) ∧
      ∀ j (hj : j < ([5, 6] : List ℚ).length),
        inWin 0 10 (([5, 6] : List ℚ).get ⟨j, hj⟩) →
        |([5, 6] : List ℚ).get ⟨0, hi⟩ - 27/5| ≤
          |([5, 6] : List ℚ).get ⟨j, hj⟩ - 27/5| ∧
        (|([5, 6] : List ℚ).get ⟨j, hj⟩ - 27/5| ≤
          |([5, 6] : List ℚ).get ⟨0, hi⟩ - 27/5| → 0 ≤ j) :=
  ⟨by norm_num [bestIdx, bestScan, pyAbs],
    hover_nearest 0 10 (27/5) [5, 6] 0 (by norm_num [bestIdx, bestScan, pyAbs])⟩

theorem roundHalfEven_low (x : ℚ) (f : ℤ) (hf : (⌊x⌋ : ℤ) = f)
    (h : x - f < 1/2) : roundHalfEven x = f := by
  unfold roundHalfEven
  rw [hf, if_pos h]

theorem fmt2_eval (q : ℚ) (n : ℤ) (h : roundHalfEven (q * 100) = n) :
    fmt2 q = (if n < 0 then "-" else "") ++ toString (n.natAbs / 100) ++
      "." ++ pad2 (n.natAbs % 100) := by
  unfold fmt2
  rw [h]

theorem fmt1_eval (q : ℚ) (n : ℤ) (h : roundHalfEven (q * 10) = n) :
    fmt1 q = (if n < 0 then "-" else "") ++ toString (n.natAbs / 10) ++
      "." ++ toString (n.natAbs % 10) := by
  unfold fmt1
  rw [h]

theorem fmt2_five_sixtieths : fmt2 (5 / 60) = "0.08" := by
  rw [fmt2_eval _ 8 (roundHalfEven_low _ 8 (by norm_num) (by norm_num))]
  decide

theorem fmt2_twenty : fmt2 20 = "20.00" := by
  rw [fmt2_eval _ 2000 (roundHalfEven_low _ 2000 (by norm_num) (by norm_num))]
  decide

/-- C8: whenever the hover readout is non-empty it is built from the
matched triples in display order: the time label is the matched sample
time of the FIRST contributing channel (not the cursor's raw time),
rendered in minutes to two decimals, and each contributing channel's
value is rendered to two decimals with a degree-Celsius suffix, all
joined by the separator. -/
theorem hover_readout_format (st : HoverState) (x y : ℚ)
    (h : on_mouse_move st x y ≠ "") :
    ∃ g n0 t0 v0 rest, st.geom = some g ∧
      hoverInfo st g (cursorTime g x) = (n0, t0, v0) :: rest ∧
      on_mouse_move st x y =
        String.intercalate " | "
          (("t=" ++ fmt2 (t0 / 60) ++ " min") ::
            ((n0, t0, v0) :: rest).map
              (fun p => p.1 ++ "=" ++ fmt2 p.2.2 ++ "°C")) := by
  unfold on_mouse_move at h ⊢
  by_cases h1 : st.history = []
  · rw [if_pos h1] at h
    exact absurd rfl h
  · rw [if_neg h1] at h ⊢
    cases hg : st.geom with
    | none => simp only [hg] at h; exact absurd rfl h
    | some g =>
        simp only [hg] at h ⊢
        by_cases h2 : x < g.left ∨ g.right < x ∨ y < g.top ∨ g.bottom < y
        · rw [if_pos h2] at h
          exact absurd rfl h
        · rw [if_neg h2] at h ⊢
          by_cases h3 : g.right = g.left ∨ g.tmax = g.tmin
          · rw [if_pos h3] at h
            exact absurd rfl h
          · rw [if_neg h3] at h ⊢
            cases hinfo : hoverInfo st g (cursorTime g x) with
            | nil => simp only [hinfo] at h; exact absurd rfl h
            | cons p rest =>
                obtain ⟨n0, t0, v0⟩ := p
                refine ⟨g, n0, t0, v0, rest, rfl, hinfo, ?_⟩
                simp only [hinfo]

/-- C8 witness: hovering `hoverDemo` at pixel x = 54 maps to cursor time
5.4, matches the sample at `t = 5` (not 5.4), and renders
`"t=0.08 min | A=20.00°C"` — matched time in minutes to two decimals and
the value to two decimals with the suffix. -/
theorem hover_readout_format_witness :
    on_mouse_move hoverDemo 54 50 ≠ "" ∧
    on_mouse_move hoverDemo 54 50 = "t=0.08 min | A=20.00°C" ∧
    (∃ g n0 t0 v0 rest, hoverDemo.geom = some g ∧
      hoverInfo hoverDemo g (cursorTime g 54) = (n0, t0, v0) :: rest ∧
      on_mouse_move hoverDemo 54 50 =
        String.intercalate " | "
          (("t=" ++ fmt2 (t0 / 60) ++ " min") ::
            ((n0, t0, v0) :: rest).map
              (fun p => p.1 ++ "=" ++ fmt2 p.2.2 ++ "°C"))) := by
  have hcur : cursorTime ⟨0, 100, 0, 100, 0, 10, 0, 30⟩ 54 = 27/5 := by
    unfold cursorTime
    norm_num
  have hbest : bestIdx 0 10 (27/5) [5, 6] = some 0 := by
    norm_num [bestIdx, bestScan, pyAbs]
  have hinfo : hoverInfo hoverDemo ⟨0, 100, 0, 100, 0, 10, 0, 30⟩ (27/5) =
      [("A", 5, 20)] := by
    simp [hoverInfo, isHidden, alistGet, hbest, hoverDemo]
  have heval : on_mouse_move hoverDemo 54 50 = "t=0.08 min | A=20.00°C" := by
    unfold on_mouse_move
    rw [if_neg (show ¬(hoverDemo.history = []) by decide)]
    simp only [show hoverDemo.geom = some ⟨0, 100, 0, 100, 0, 10, 0, 30⟩
      from rfl]
    rw [if_neg (by norm_num), if_neg (by norm_num)]
    rw [hcur, hinfo]
    simp only [List.map_cons, List.map_nil]
    rw [fmt2_five_sixtieths, fmt2_twenty]
    rfl
  exact ⟨by rw [heval]; decide, heval,
    hover_readout_format hoverDemo 54 50 (by rw [heval]; decide)⟩

theorem xGridlines_getD (left right tmin tmax : ℚ) (i : Nat) (hi : i < 6) :
    (xGridlines left right tmin tmax).getD i (0, "") =
      (left + (i : ℚ) * (right - left) / 5,
        fmt1 ((tmin + (tmax - tmin) * (i : ℚ) / 5) / 60)) := by
  interval_cases i <;> rfl

theorem yGridlines_getD (top bottom vmin vmax : ℚ) (j : Nat) (hj : j < 6) :
    (yGridlines top bottom vmin vmax).getD j (0, "") =
      (top + (j : ℚ) * (bottom - top) / 5,
        fmt1 (vmax - (vmax - vmin) * (j : ℚ) / 5)) := by
  interval_cases j <;> rfl

theorem fmt1_ten : fmt1 10 = "10.0" := by
  rw [fmt1_eval _ 100 (roundHalfEven_low _ 100 (by norm_num) (by norm_num))]
  decide

theorem fmt2_ten : fmt2 10 = "10.00" := by
  rw [fmt2_eval _ 1000 (roundHalfEven_low _ 1000 (by norm_num) (by norm_num))]
  decide

/-- C9 counterexample: with value range `[0, 10]`, the topmost horizontal
gridline (`j = 0`, raw value 10) is labeled `"10.0"` — one decimal place —
while the two-decimal rendering of that raw value is `"10.00"`: the code
formats axis labels with `:.1f`, not to 2 decimal places. -/
theorem grid_label_not_two_decimals :
    ((yGridlines 0 100 0 10).getD 0 (0, "")).2 = "10.0" ∧
    fmt2 10 = "10.00" ∧
    ((yGridlines 0 100 0 10).getD 0 (0, "")).2 ≠ fmt2 10 := by
  have h0 : ((yGridlines 0 100 0 10).getD 0 (0, "")).2 =
      fmt1 (10 - (10 - 0) * ((0 : Nat) : ℚ) / 5) := rfl
  have harg : (10 : ℚ) - (10 - 0) * ((0 : Nat) : ℚ) / 5 = 10 := by norm_num
  rw [h0, harg, fmt1_ten, fmt2_ten]
  exact ⟨rfl, rfl, by decide⟩

/-- C9 amended: every render draws 6 gridlines (5 divisions) per axis,
evenly spaced, the vertical ones labeled with time in minutes (`t/60`)
and the horizontal ones with the raw value — each label formatted to ONE
decimal place (`:.1f`), not two. -/
theorem grid_divisions (left right tmin tmax top bottom vmin vmax : ℚ) :
    (xGridlines left right tmin tmax).length = 6 ∧
    (yGridlines top bottom vmin vmax).length = 6 ∧
    (∀ i, i < 5 →
      ((xGridlines left right tmin tmax).getD (i + 1) (0, "")).1 -
        ((xGridlines left right tmin tmax).getD i (0, "")).1 =
        (right - left) / 5) ∧
    (∀ j, j < 5 →
      ((yGridlines top bottom vmin vmax).getD (j + 1) (0, "")).1 -
        ((yGridlines top bottom vmin vmax).getD j (0, "")).1 =
        (bottom - top) / 5) ∧
    (∀ i, i < 6 →
      ((xGridlines left right tmin tmax).getD i (0, "")).2 =
        fmt1 ((tmin + (tmax - tmin) * (i : ℚ) / 5) / 60)) ∧
    (∀ j, j < 6 →
      ((yGridlines top bottom vmin vmax).getD j (0, "")).2 =
        fmt1 (vmax - (vmax - vmin) * (j : ℚ) / 5)) := by
  refine ⟨rfl, rfl, ?_, ?_, ?_, ?_⟩
  · intro i hi
    rw [xGridlines_getD left right tmin tmax (i + 1) (by omega),
      xGridlines_getD left right tmin tmax i (by omega)]
    push_cast
    ring
  · intro j hj
    rw [yGridlines_getD top bottom vmin vmax (j + 1) (by omega),
      yGridlines_getD top bottom vmin vmax j (by omega)]
    push_cast
    ring
  · intro i hi
    rw [xGridlines_getD left right tmin tmax i hi]
  · intro j hj
    rw [yGridlines_getD top bottom vmin vmax j hj]

/-- C9 amended witness: for the x-axis over pixels `[0, 100]`, consecutive
gridlines are `(100 - 0)/5 = 20` pixels apart. -/
theorem grid_divisions_witness :
    0 < 5 ∧
    ((xGridlines 0 100 0 10).getD 1 (0, "")).1 -
      ((xGridlines 0 100 0 10).getD 0 (0, "")).1 = (100 - 0) / 5 :=
  ⟨by decide, (grid_divisions 0 100 0 10 0 100 0 30).2.2.1 0 (by decide)⟩

/-- C10: the palette has exactly 8 colours and a channel's colour (used
for both its polyline and its legend swatch) is the palette entry at its
position mod 8, so channels whose positions agree mod 8 share a colour —
distinct colours are not guaranteed beyond 8 channels. -/
theorem channelColor_mod8 :
    graph_colors.length = 8 ∧
    (∀ i j : Nat, i % 8 = j % 8 → channelColor i = channelColor j) ∧
    (∀ i : Nat, channelColor (i + 8) = channelColor i) := by
  refine ⟨rfl, ?_, ?_⟩
  · intro i j hij
    unfold channelColor
    rw [show graph_colors.length = 8 from rfl, hij]
  · intro i
    unfold channelColor
    rw [show graph_colors.length = 8 from rfl, Nat.add_mod_right]

/-- C10 witness: channels at positions 8 and 0 get the same colour. -/
theorem channelColor_mod8_witness :
    8 % 8 = 0 % 8 ∧ channelColor 8 = channelColor 0 :=
  ⟨by decide, channelColor_mod8.2.1 8 0 (by decide)⟩

end GraphWindow
